import Mathlib

/-!
Verification of the LSP Session Manager daemon (mcp-bsl-lsp-bridge).

Shallow embedding of the Go sources:
- cmd/lsp-session-manager main file (JSONRPCID codec, sendRequest /
  readResponses pending-map broker, readLSPMessage framing, writeMessage,
  handleDidOpen document registry, getStatus indexing state derivation,
  handleAPIRequest router, startFileWatcherAfterIndexing wait loop);
- cmd/lsp-session-manager/polling_watcher.go (checkForChanges diffing).

Stateful Go code is embedded as explicit state passing; Go int64 is Int;
byte streams are lists of characters; channel buffers of capacity one are
Option values; the LSP subprocess and socket I/O are closed over as inputs.
-/

/-! ## Association-list embedding of Go maps -/

/-- Lookup in an association list, the embedding of a Go map read. -/
def lookupKey {α β : Type} [DecidableEq α] : List (α × β) → α → Option β
  | [], _ => none
  | (k0, v0) :: t, k => if k0 = k then some v0 else lookupKey t k

/-- Replace-or-append insertion, the embedding of a Go map assignment. -/
def insertKey {α β : Type} [DecidableEq α] : List (α × β) → α → β → List (α × β)
  | [], k, v => [(k, v)]
  | (k0, v0) :: t, k, v =>
      if k0 = k then (k, v) :: t else (k0, v0) :: insertKey t k v

/-- Key removal, the embedding of a Go map delete. -/
def eraseKey {α β : Type} [DecidableEq α] : List (α × β) → α → List (α × β)
  | [], _ => []
  | (k0, v0) :: t, k =>
      if k0 = k then eraseKey t k else (k0, v0) :: eraseKey t k

/-- Whether the key occurs in the association list. -/
def containsKey {α β : Type} [DecidableEq α] (l : List (α × β)) (k : α) : Bool :=
  (lookupKey l k).isSome

/-- Executable check that keys are pairwise distinct. -/
def nodupKeys {α β : Type} [DecidableEq α] : List (α × β) → Bool
  | [] => true
  | (k, _) :: t => !containsKey t k && nodupKeys t

/-! ## Decimal integers: fmt.Sprintf %d and strconv.Atoi / strconv.ParseInt -/

/-- Decimal digit test, as in strconv: the character is between 0 and 9. -/
def charIsDigit (c : Char) : Bool := 48 ≤ c.toNat && c.toNat ≤ 57

/-- Digit accumulator for decimal rendering; the fuel argument only bounds
the recursion and any value at least the value being rendered is ample. -/
def decReprAux : Nat → Nat → List Char
  | 0, _ => []
  | fuel + 1, n =>
      if n = 0 then [] else decReprAux fuel (n / 10) ++ [Nat.digitChar (n % 10)]

/-- Decimal rendering of a natural number, the embedding of fmt.Sprintf %d
for a non-negative length. -/
def decRepr (n : Nat) : List Char :=
  if n = 0 then ['0'] else decReprAux n n

/-- Magnitude part of strconv.ParseInt base 10 bit size 64: a non-empty
all-digit string, accumulated left to right, with the int64 range check. -/
def atoiMag (neg : Bool) (ds : List Char) : Option Int :=
  if ds = [] then none
  else if ds.all charIsDigit then
    let v : Nat := ds.foldl (fun a c => a * 10 + (c.toNat - 48)) 0
    if neg then
      if v ≤ 2 ^ 63 then some (-(v : Int)) else none
    else
      if v ≤ 2 ^ 63 - 1 then some ((v : Int)) else none
  else none

/-- Embedding of strconv.Atoi / strconv.ParseInt(s, 10, 64): optional sign
followed by decimal digits, rejecting anything else or an overflow. -/
def atoiChars (l : List Char) : Option Int :=
  match l with
  | [] => none
  | c :: rest =>
      if c = '-' then atoiMag true rest
      else if c = '+' then atoiMag false rest
      else atoiMag false l

/-- strconv.ParseInt(s, 10, 64) on a Go string. -/
def parseInt64 (s : String) : Option Int := atoiChars s.data

/-! ## ID codec: type JSONRPCID with UnmarshalJSON / MarshalJSON / AsInt64 -/

deriving instance DecidableEq for Except

/-- Wire-level shape of a JSON-RPC id field. Integer-valued JSON numbers are
jnum; every JSON value that Go json.Unmarshal accepts into neither an int64
nor a string (objects, arrays, booleans, fractional or overflowing numbers)
is collapsed into jother, on which both decode attempts fail. -/
inductive JVal where
  | jnull
  | jnum (n : Int)
  | jstr (s : String)
  | jother
deriving DecidableEq, Repr

/-- Embedding of the Go struct JSONRPCID: optional int64 and string fields. -/
structure JSONRPCID where
  intValue : Option Int
  strValue : Option String
deriving DecidableEq, Repr

/-- Embedding of JSONRPCID.UnmarshalJSON: null first, then int64, then string;
a string is additionally parsed as a decimal integer alias. -/
def unmarshalJSON : JVal → Except String JSONRPCID
  | JVal.jnull => Except.ok ⟨none, none⟩
  | JVal.jnum n =>
      if -(2 ^ 63) ≤ n ∧ n ≤ 2 ^ 63 - 1 then Except.ok ⟨some n, none⟩
      else Except.error "id must be string, number, or null"
  | JVal.jstr s => Except.ok ⟨parseInt64 s, some s⟩
  | JVal.jother => Except.error "id must be string, number, or null"

/-- Embedding of JSONRPCID.MarshalJSON: intValue wins, then strValue, else null. -/
def marshalJSON (id : JSONRPCID) : JVal :=
  match id.intValue with
  | some n => JVal.jnum n
  | none =>
      match id.strValue with
      | some s => JVal.jstr s
      | none => JVal.jnull

/-- Embedding of JSONRPCID.AsInt64: the int64 value, or 0 when unset. -/
def JSONRPCID.AsInt64 (id : JSONRPCID) : Int :=
  match id.intValue with
  | some n => n
  | none => 0

/-- Embedding of JSONRPCID.IsSet. -/
def JSONRPCID.IsSet (id : JSONRPCID) : Bool :=
  id.intValue.isSome || id.strValue.isSome

/-- Parse-then-serialize composition over the wire shape. -/
def roundtripId (v : JVal) : Option JVal :=
  match unmarshalJSON v with
  | Except.ok id => some (marshalJSON id)
  | Except.error _ => none

/-- Shape that parse-then-serialize actually produces, written from the
amended claim: null, numbers and non-numeric strings keep their shape, while
a string parsing as a decimal integer is re-emitted as the number. -/
def roundtripExpected : JVal → JVal
  | JVal.jnull => JVal.jnull
  | JVal.jnum n => JVal.jnum n
  | JVal.jstr s =>
      match parseInt64 s with
      | some n => JVal.jnum n
      | none => JVal.jstr s
  | JVal.jother => JVal.jother

/-! ## Framed codec: writeMessage and readLSPMessage over a byte stream -/

/-- Embedding of bufio Reader.ReadString with an end-of-line delimiter: the
returned line includes the delimiter; none models the EOF error path. -/
def readLine : List Char → Option (List Char × List Char)
  | [] => none
  | c :: cs =>
      if c = '\n' then some ([c], cs)
      else
        match readLine cs with
        | none => none
        | some (l, r) => some (c :: l, r)

/-- ASCII whitespace test covering every character strings.TrimSpace trims in
the frames at hand. -/
def isSpaceChar (c : Char) : Bool := c = ' ' || c = '\t' || c = '\n' || c = '\r'

/-- Embedding of strings.TrimSpace. -/
def trimChars (l : List Char) : List Char :=
  ((l.dropWhile isSpaceChar).reverse.dropWhile isSpaceChar).reverse

/-- Embedding of strings.HasPrefix. -/
def listStartsWith : List Char → List Char → Bool
  | [], _ => true
  | _ :: _, [] => false
  | p :: ps, c :: cs => p = c && listStartsWith ps cs

/-- Embedding of strings.TrimPrefix: drop the tag when it is a prefix,
otherwise return the list unchanged. -/
def dropPre (tag l : List Char) : List Char :=
  if listStartsWith tag l then l.drop tag.length else l

/-- The header tag the reader searches for. -/
def clTag : List Char := "Content-Length:".data

/-- Header loop of readLSPMessage: read lines until a blank one, remembering
the last parsed Content-Length value; a parse failure or EOF is an error.
The fuel argument only bounds recursion and is always ample. -/
def readHeaders : Nat → List Char → Int → Except String (Int × List Char)
  | 0, _, _ => Except.error "read error"
  | fuel + 1, input, acc =>
      match readLine input with
      | none => Except.error "read error"
      | some (line, rest) =>
          let t := trimChars line
          if t = [] then Except.ok (acc, rest)
          else if listStartsWith clTag t then
            match atoiChars (trimChars (dropPre clTag t)) with
            | some n => readHeaders fuel rest n
            | none => Except.error "invalid Content-Length"
          else readHeaders fuel rest acc

/-- Embedding of io.ReadFull on a byte list: exactly n bytes or an EOF error. -/
def readFull (l : List Char) (n : Nat) : Option (List Char × List Char) :=
  if l.length < n then none else some (l.take n, l.drop n)

/-- Embedding of readLSPMessage: header block, Content-Length mandatory and
non-zero, then exactly that many body bytes. A negative length, on which the
Go code would die allocating the buffer, is modelled as a terminating error. -/
def readLSPMessage (input : List Char) : Except String (List Char × List Char) :=
  match readHeaders (input.length + 1) input 0 with
  | Except.error e => Except.error e
  | Except.ok (n, rest) =>
      if n = 0 then Except.error "missing Content-Length header"
      else if n < 0 then Except.error "negative Content-Length"
      else
        match readFull rest n.toNat with
        | none => Except.error "unexpected EOF"
        | some (body, rest2) => Except.ok (body, rest2)

/-- Embedding of writeMessage framing: the Content-Length header line, a blank
line, then exactly the body bytes. -/
def writeFrame (body : List Char) : List Char :=
  "Content-Length: ".data ++ decRepr body.length ++ "\r\n\r\n".data ++ body

/-- Control flow of the readResponses loop: on a frame error the loop returns;
on success the body is consumed and the loop continues (a body whose JSON does
not parse is logged and skipped without stopping the loop, so the list below
is exactly the sequence of bodies the loop goes on to process). -/
def readLoop : Nat → List Char → List (List Char)
  | 0, _ => []
  | fuel + 1, input =>
      match readLSPMessage input with
      | Except.error _ => []
      | Except.ok (body, rest) => body :: readLoop fuel rest

/-! ## Request registry: sendRequest / readResponses pending map -/

/-- Embedding of the lspResponse struct: raw result bytes plus the optional
error object (code, message). -/
structure lspResponse where
  result : String
  err : Option (Int × String)
deriving DecidableEq, Repr

/-- The broker fields touched under pendingMu: the request counter and the
pending map. Each map value is the single-slot response channel, its buffer
of capacity one embedded as an Option. -/
structure Broker where
  requestID : Int
  pending : List (Int × Option lspResponse)
deriving DecidableEq, Repr

/-- The broker at daemon start: counter zero, empty pending map. -/
def initBroker : Broker := ⟨0, []⟩

/-- Entry of sendRequest under pendingMu: increment the counter, take the new
value as the id, and register an empty one-slot channel for it. -/
def allocEnter (b : Broker) : Broker × Int :=
  let id := b.requestID + 1
  (⟨id, insertKey b.pending id none⟩, id)

/-- Outcome of the response-delivery attempt in readResponses. -/
inductive DeliverOutcome where
  | buffered
  | wouldBlock
  | discarded
deriving DecidableEq, Repr

/-- Embedding of the response branch of readResponses: look the id up in the
pending map; when present with an empty buffer the response is placed in the
channel buffer; a full buffer would block the plain channel send; an absent
id leaves everything unchanged (the response is silently dropped). -/
def deliverResponse (b : Broker) (key : Int) (r : lspResponse) :
    Broker × DeliverOutcome :=
  match lookupKey b.pending key with
  | none => (b, DeliverOutcome.discarded)
  | some none =>
      (⟨b.requestID, insertKey b.pending key (some r)⟩, DeliverOutcome.buffered)
  | some (some _) => (b, DeliverOutcome.wouldBlock)

/-- Embedding of the deferred delete in sendRequest, which runs on both return
paths (response received and context deadline): the entry is removed and
whatever the buffer held is what the caller received, if anything. -/
def exitRequest (b : Broker) (id : Int) : Broker × Option lspResponse :=
  (⟨b.requestID, eraseKey b.pending id⟩,
    match lookupKey b.pending id with
    | some buf => buf
    | none => none)

/-- One interleaved event on the pending map. -/
inductive BrokerEvent where
  | alloc
  | deliver (key : Int) (r : lspResponse)
  | exitReq (id : Int)

/-- State transition of one event. -/
def stepBroker (b : Broker) : BrokerEvent → Broker
  | BrokerEvent.alloc => (allocEnter b).1
  | BrokerEvent.deliver k r => (deliverResponse b k r).1
  | BrokerEvent.exitReq id => (exitRequest b id).1

/-- The broker state after a sequence of events from daemon start. -/
def runBroker (tr : List BrokerEvent) : Broker :=
  tr.foldl stepBroker initBroker

/-- A state the pending map can actually be in. -/
def ReachableBroker (b : Broker) : Prop := ∃ tr, runBroker tr = b

/-- All pending ids lie in the allocated range 1..requestID. -/
def brokerKeysBounded (b : Broker) : Prop :=
  ∀ k buf, (k, buf) ∈ b.pending → 1 ≤ k ∧ k ≤ b.requestID

/-! ## Document registry: handleDidOpen -/

/-- A notification the broker writes to the LSP stream for a document. -/
inductive DocNotif where
  | didOpen (uri : String)
  | didClose (uri : String)
deriving DecidableEq, Repr

/-- Open-document set plus the stream of document notifications sent so far. -/
structure DocState where
  openDocs : List String
  sent : List DocNotif
deriving DecidableEq, Repr

/-- Go map-to-bool set insertion: openDocs[uri] = true. -/
def setInsert (l : List String) (u : String) : List String :=
  if u ∈ l then l else l ++ [u]

/-- Embedding of handleDidOpen: record the membership test, mark the URI
present, and if it was already open send didClose before the didOpen. -/
def handleDidOpen (s : DocState) (uri : String) : DocState :=
  let docs := setInsert s.openDocs uri
  if uri ∈ s.openDocs then
    ⟨docs, s.sent ++ [DocNotif.didClose uri, DocNotif.didOpen uri]⟩
  else
    ⟨docs, s.sent ++ [DocNotif.didOpen uri]⟩

/-- Embedding of handleDidClose: remove and forward unconditionally. -/
def handleDidClose (s : DocState) (uri : String) : DocState :=
  ⟨s.openDocs.filter (fun v => v ≠ uri), s.sent ++ [DocNotif.didClose uri]⟩

/-! ## Polling watcher: checkForChanges -/

/-- Embedding of a FileChange value: URI plus change type
(1 created, 2 changed, 3 deleted). -/
structure FileChange where
  uri : String
  type : Int
deriving DecidableEq, Repr

/-- Embedding of pathToURI: slashes normalized, a leading slash ensured,
file scheme prepended. -/
def pathToURI (path : String) : String :=
  let p := String.mk (path.data.map (fun c => if c = '\\' then '/' else c))
  let p2 := if p.data.head? = some '/' then p else "/" ++ p
  "file://" ++ p2

/-- The diff of checkForChanges: walk the new snapshot for created and changed
paths, then the old snapshot for deleted ones. -/
def computeChanges (oldFiles newFiles : List (String × Int)) : List FileChange :=
  let createdChanged := newFiles.foldl
    (fun acc pm =>
      match lookupKey oldFiles pm.1 with
      | none => acc ++ [⟨pathToURI pm.1, 1⟩]
      | some oldM => if pm.2 ≠ oldM then acc ++ [⟨pathToURI pm.1, 2⟩] else acc)
    []
  oldFiles.foldl
    (fun acc pm =>
      match lookupKey newFiles pm.1 with
      | none => acc ++ [⟨pathToURI pm.1, 3⟩]
      | some _ => acc)
    createdChanged

/-- Embedding of PollingWatcher.checkForChanges for one tick: the snapshot is
replaced by the fresh scan unconditionally, and the notification is sent only
when changes exist and the indexing check is negative. Returns the stored
snapshot and the list of changes passed to sendNotifyFunc ([] when none). -/
def checkForChanges (fileMap scanned : List (String × Int)) (indexing : Bool) :
    List (String × Int) × List FileChange :=
  let changes := computeChanges fileMap scanned
  let emitted := if changes = [] then [] else if indexing then [] else changes
  (scanned, emitted)

/-! ## Watcher start: startFileWatcherAfterIndexing -/

/-- The wait loop of startFileWatcherAfterIndexing, abstracted over the value
of the indexingActive flag at each successive 5-second poll: keep sleeping
while the flag reads true, and return the index of the first poll at which it
reads false, which is the moment the watcher is started. -/
def waitLoopAux (activeAt : Nat → Bool) : Nat → Nat → Option Nat
  | 0, _ => none
  | fuel + 1, i => if activeAt i then waitLoopAux activeAt fuel (i + 1) else some i

/-- Poll index at which startFileWatcherAfterIndexing calls startFileWatcher. -/
def startFileWatcherAfterIndexing (activeAt : Nat → Bool) (fuel : Nat) : Option Nat :=
  waitLoopAux activeAt fuel 0

/-! ## Progress state derivation: getStatus -/

/-- The progress-tracking fields getStatus reads. Go float64 speed is embedded
as a rational: only its sign and one division are consumed here. -/
structure IndexingState where
  active : Bool
  current : Int
  total : Int
  speed : Rat
deriving DecidableEq, Repr

/-- The isActive derivation in getStatus. -/
def statusIsActive (s : IndexingState) : Bool :=
  s.active || (decide (0 < s.total) && decide (s.current < s.total))

/-- The isComplete derivation in getStatus. -/
def statusIsComplete (s : IndexingState) : Bool :=
  decide (0 < s.total) && decide (s.total ≤ s.current)

/-- The state string getStatus reports. -/
def getStatusState (s : IndexingState) : String :=
  if statusIsActive s then "indexing"
  else if statusIsComplete s then "complete"
  else "idle"

/-- The eta_seconds field getStatus reports: present only when active, the
speed is positive and files remain; Go truncates the float division toward
zero, which on this positive value is the floor. -/
def getStatusEta (s : IndexingState) : Option Int :=
  if statusIsActive s ∧ 0 < s.speed ∧ s.current < s.total then
    some (Rat.floor ((s.total - s.current : Rat) / s.speed))
  else none

/-- State derivation written from the words of the claim: indexing if active
OR (total > 0 AND current < total); complete if total > 0 AND current >= total;
otherwise idle. -/
def claimDerivedState (s : IndexingState) : String :=
  if s.active = true ∨ (0 < s.total ∧ s.current < s.total) then "indexing"
  else if 0 < s.total ∧ s.total ≤ s.current then "complete"
  else "idle"

/-! ## API router: handleAPIRequest and HandleClient error paths -/

/-- The methods of the handleAPIRequest dispatch switch. -/
def apiMethods : List String :=
  ["session/status", "session/capabilities",
   "textDocument/didOpen", "textDocument/didClose",
   "textDocument/hover", "textDocument/definition", "textDocument/references",
   "textDocument/documentSymbol", "textDocument/diagnostic",
   "textDocument/implementation", "textDocument/codeAction",
   "textDocument/formatting", "textDocument/rename",
   "textDocument/prepareRename", "textDocument/prepareCallHierarchy",
   "callHierarchy/incomingCalls", "callHierarchy/outgoingCalls",
   "workspace/didChangeWatchedFiles", "workspace/symbol", "workspace/diagnostic"]

/-- Embedding of handleAPIRequest as seen by HandleClient: a known method
runs its handler, whose outcome (success or failure, decided by the LSP
subprocess and parameters) is an input here; the default branch returns the
unknown-method error without consulting anything else. -/
def handleAPIRequestOutcome (m : String) (handler : Except String Unit) :
    Except String Unit :=
  if apiMethods.contains m then handler
  else Except.error ("unknown method: " ++ m)

/-- A response HandleClient writes back on the client socket. -/
inductive APIResponse where
  | success (id : Int)
  | failure (id : Int) (code : Int) (message : String)
deriving DecidableEq, Repr

/-- Embedding of one iteration of HandleClient for a non-empty line: a line
that fails JSON parsing gets the parse error with code -32700 and id 0; a
handler error gets code -32603 with the error text; otherwise the result is
echoed with the request id. -/
def processAPILine (parsed : Option (Int × String))
    (handler : Except String Unit) : APIResponse :=
  match parsed with
  | none => APIResponse.failure 0 (-32700) "Parse error"
  | some (id, m) =>
      match handleAPIRequestOutcome m handler with
      | Except.error e => APIResponse.failure id (-32603) e
      | Except.ok _ => APIResponse.success id

/-! ## Helper lemmas about the association-list map -/

theorem lookupKey_mem {α β : Type} [DecidableEq α] {l : List (α × β)} {k : α}
    {v : β} (h : lookupKey l k = some v) : (k, v) ∈ l := by
  induction l with
  | nil => simp [lookupKey] at h
  | cons hd tl ih =>
      obtain ⟨k0, v0⟩ := hd
      by_cases hk : k0 = k
      · subst hk
        simp [lookupKey] at h
        simp [h]
      · simp [lookupKey, hk] at h
        exact List.mem_cons_of_mem _ (ih h)

theorem lookupKey_eraseKey_self {α β : Type} [DecidableEq α]
    (l : List (α × β)) (k : α) : lookupKey (eraseKey l k) k = none := by
  induction l with
  | nil => rfl
  | cons hd tl ih =>
      obtain ⟨k0, v0⟩ := hd
      by_cases hk : k0 = k <;> simp [eraseKey, lookupKey, hk, ih]

theorem mem_eraseKey {α β : Type} [DecidableEq α] {l : List (α × β)} {k : α}
    {x : α × β} (hx : x ∈ eraseKey l k) : x ∈ l := by
  induction l with
  | nil => simp [eraseKey] at hx
  | cons hd tl ih =>
      obtain ⟨k0, v0⟩ := hd
      by_cases hk : k0 = k
      · simp [eraseKey, hk] at hx
        exact List.mem_cons_of_mem _ (ih hx)
      · simp [eraseKey, hk] at hx
        rcases hx with hx | hx
        · simp [hx]
        · exact List.mem_cons_of_mem _ (ih hx)

theorem mem_insertKey {α β : Type} [DecidableEq α] {l : List (α × β)} {k : α}
    {v : β} {x : α × β} (hx : x ∈ insertKey l k v) : x = (k, v) ∨ x ∈ l := by
  induction l with
  | nil => simp [insertKey] at hx; simp [hx]
  | cons hd tl ih =>
      obtain ⟨k0, v0⟩ := hd
      by_cases hk : k0 = k
      · simp [insertKey, hk] at hx
        rcases hx with hx | hx
        · exact Or.inl (by simp [hx])
        · exact Or.inr (List.mem_cons_of_mem _ hx)
      · simp [insertKey, hk] at hx
        rcases hx with hx | hx
        · exact Or.inr (by simp [hx])
        · rcases ih hx with h | h
          · exact Or.inl h
          · exact Or.inr (List.mem_cons_of_mem _ h)

theorem lookupKey_insertKey {α β : Type} [DecidableEq α] (l : List (α × β))
    (k : α) (v : β) (k' : α) :
    lookupKey (insertKey l k v) k' = if k = k' then some v else lookupKey l k' := by
  induction l with
  | nil => by_cases hk : k = k' <;> simp [insertKey, lookupKey, hk]
  | cons hd tl ih =>
      obtain ⟨k0, v0⟩ := hd
      by_cases hk : k0 = k
      · subst hk
        by_cases hk' : k0 = k' <;> simp [insertKey, lookupKey, hk', ih]
      · by_cases hk' : k0 = k'
        · subst hk'
          have hkk : ¬(k = k0) := fun hh => hk hh.symm
          simp [insertKey, lookupKey, hk, hkk]
        · simp [insertKey, lookupKey, hk, hk', ih]

theorem containsKey_insertKey {α β : Type} [DecidableEq α] (l : List (α × β))
    (k : α) (v : β) (k' : α) :
    containsKey (insertKey l k v) k' = (decide (k = k') || containsKey l k') := by
  by_cases hk : k = k' <;> simp [containsKey, lookupKey_insertKey, hk]

theorem containsKey_eraseKey {α β : Type} [DecidableEq α] {l : List (α × β)}
    {k k' : α} (h : containsKey (eraseKey l k) k' = true) :
    containsKey l k' = true := by
  induction l with
  | nil => simpa [eraseKey] using h
  | cons hd tl ih =>
      obtain ⟨k0, v0⟩ := hd
      by_cases hk : k0 = k
      · simp [eraseKey, hk] at h
        by_cases hk' : k0 = k'
        · simp [containsKey, lookupKey, hk']
        · simpa [containsKey, lookupKey, hk'] using ih h
      · by_cases hk' : k0 = k'
        · simp [containsKey, lookupKey, hk']
        · simp [eraseKey, containsKey, lookupKey, hk, hk'] at h ⊢
          exact ih h

theorem nodupKeys_insertKey {α β : Type} [DecidableEq α] {l : List (α × β)}
    (h : nodupKeys l = true) (k : α) (v : β) :
    nodupKeys (insertKey l k v) = true := by
  induction l with
  | nil => simp [insertKey, nodupKeys, containsKey, lookupKey]
  | cons hd tl ih =>
      obtain ⟨k0, v0⟩ := hd
      simp [nodupKeys] at h
      by_cases hk : k0 = k
      · subst hk
        simp [insertKey, nodupKeys, h.1, h.2]
      · have hne : ¬(k = k0) := fun hh => hk hh.symm
        simp [insertKey, hk, nodupKeys, containsKey_insertKey, hne, h.1,
          ih h.2]

theorem nodupKeys_eraseKey {α β : Type} [DecidableEq α] {l : List (α × β)}
    (h : nodupKeys l = true) (k : α) : nodupKeys (eraseKey l k) = true := by
  induction l with
  | nil => simp [eraseKey, nodupKeys]
  | cons hd tl ih =>
      obtain ⟨k0, v0⟩ := hd
      simp [nodupKeys] at h
      by_cases hk : k0 = k
      · simp [eraseKey, hk, ih h.2]
      · simp [eraseKey, hk, nodupKeys, ih h.2]
        cases hcc : containsKey (eraseKey tl k) k0 with
        | false => rfl
        | true => exact absurd (containsKey_eraseKey hcc) (by simp [h.1])

/-! ## Broker invariant -/

/-- The invariant of the pending map: no duplicate ids, every id in the
allocated range 1..requestID, counter non-negative. -/
def brokerInv (b : Broker) : Prop :=
  nodupKeys b.pending = true ∧ 0 ≤ b.requestID ∧
    ∀ k buf, (k, buf) ∈ b.pending → 1 ≤ k ∧ k ≤ b.requestID

theorem brokerInv_step (b : Broker) (e : BrokerEvent) (h : brokerInv b) :
    brokerInv (stepBroker b e) := by
  obtain ⟨hnd, hid, hbound⟩ := h
  cases e with
  | alloc =>
      refine ⟨nodupKeys_insertKey hnd _ _, ?_, ?_⟩
      · show (0 : Int) ≤ b.requestID + 1
        omega
      · intro k buf hk
        show 1 ≤ k ∧ k ≤ b.requestID + 1
        have hk2 : (k, buf) ∈ insertKey b.pending (b.requestID + 1) none := hk
        rcases mem_insertKey hk2 with hh | hh
        · simp only [Prod.mk.injEq] at hh
          obtain ⟨hh1, -⟩ := hh
          omega
        · have := hbound k buf hh
          omega
  | deliver key r =>
      show brokerInv (deliverResponse b key r).1
      unfold deliverResponse
      cases hl : lookupKey b.pending key with
      | none => exact ⟨hnd, hid, hbound⟩
      | some buf =>
          cases buf with
          | none =>
              refine ⟨nodupKeys_insertKey hnd _ _, hid, ?_⟩
              intro k bf hk
              have hk2 : (k, bf) ∈ insertKey b.pending key (some r) := hk
              rcases mem_insertKey hk2 with hh | hh
              · simp only [Prod.mk.injEq] at hh
                obtain ⟨hh1, -⟩ := hh
                subst hh1
                exact hbound k none (lookupKey_mem hl)
              · exact hbound k bf hh
          | some r0 => exact ⟨hnd, hid, hbound⟩
  | exitReq id =>
      refine ⟨nodupKeys_eraseKey hnd _, hid, ?_⟩
      intro k buf hk
      exact hbound k buf (mem_eraseKey hk)

theorem brokerInv_run (tr : List BrokerEvent) : brokerInv (runBroker tr) := by
  have hgen : ∀ t : List BrokerEvent, ∀ b : Broker, brokerInv b →
      brokerInv (t.foldl stepBroker b) := by
    intro t
    induction t with
    | nil => intro b hb; exact hb
    | cons e t ih =>
        intro b hb
        exact ih _ (brokerInv_step b e hb)
  refine hgen tr initBroker ?_
  refine ⟨rfl, le_refl 0, ?_⟩
  intro k buf hk
  simp [initBroker] at hk

theorem brokerInv_of_reachable {b : Broker} (h : ReachableBroker b) :
    brokerInv b := by
  obtain ⟨tr, htr⟩ := h
  exact htr ▸ brokerInv_run tr

theorem lookupKey_zero_of_reachable {b : Broker} (h : ReachableBroker b) :
    lookupKey b.pending 0 = none := by
  obtain ⟨-, -, hbound⟩ := brokerInv_of_reachable h
  cases hl : lookupKey b.pending 0 with
  | none => rfl
  | some buf =>
      have := hbound 0 buf (lookupKey_mem hl)
      omega

/-- C2: for every request id the broker allocates via sendRequest, at most one
response is delivered to at most one caller (pending ids are pairwise
distinct, a buffered entry accepts no second delivery), the pending entry for
the id is removed when sendRequest returns on either path (the deferred
delete leaves no entry behind), and a response arriving after the deadline
finds no entry, leaves the broker unchanged and is silently discarded, so the
reader loop is not blocked. -/
theorem sendRequest_response_correlation (b : Broker) (h : ReachableBroker b)
    (id key : Int) (r r0 : lspResponse) :
    nodupKeys b.pending = true ∧
    lookupKey (exitRequest b id).1.pending id = none ∧
    (lookupKey b.pending key = none →
      deliverResponse b key r = (b, DeliverOutcome.discarded)) ∧
    (lookupKey b.pending key = some (some r0) →
      deliverResponse b key r = (b, DeliverOutcome.wouldBlock)) ∧
    deliverResponse (exitRequest b id).1 id r =
      ((exitRequest b id).1, DeliverOutcome.discarded) := by
  obtain ⟨hnd, -, -⟩ := brokerInv_of_reachable h
  have herase : lookupKey (exitRequest b id).1.pending id = none :=
    lookupKey_eraseKey_self b.pending id
  refine ⟨hnd, herase, ?_, ?_, ?_⟩
  · intro hl
    unfold deliverResponse
    rw [hl]
  · intro hl
    unfold deliverResponse
    rw [hl]
  · unfold deliverResponse
    rw [herase]

/-- Witness for C2 at the reachable state after one allocation. -/
theorem sendRequest_response_correlation_witness :
    nodupKeys (Broker.mk 1 [(1, none)]).pending = true ∧
    lookupKey (exitRequest ⟨1, [(1, none)]⟩ 1).1.pending 1 = none ∧
    (lookupKey (Broker.mk 1 [(1, none)]).pending 0 = none →
      deliverResponse ⟨1, [(1, none)]⟩ 0 ⟨"", none⟩ =
        (⟨1, [(1, none)]⟩, DeliverOutcome.discarded)) ∧
    (lookupKey (Broker.mk 1 [(1, none)]).pending 0 = some (some ⟨"", none⟩) →
      deliverResponse ⟨1, [(1, none)]⟩ 0 ⟨"", none⟩ =
        (⟨1, [(1, none)]⟩, DeliverOutcome.wouldBlock)) ∧
    deliverResponse (exitRequest ⟨1, [(1, none)]⟩ 1).1 1 ⟨"", none⟩ =
      ((exitRequest ⟨1, [(1, none)]⟩ 1).1, DeliverOutcome.discarded) :=
  sendRequest_response_correlation ⟨1, [(1, none)]⟩
    ⟨[BrokerEvent.alloc], rfl⟩ 1 0 ⟨"", none⟩ ⟨"", none⟩

/-- C10: a response whose id is a JSON string that does not parse as a
decimal integer is a set id (so it is treated as a response), its internal
lookup key AsInt64 is 0, key 0 is never present in the pending map of any
reachable broker state (allocated ids start from 1), and delivering at key 0
changes nothing and is silently discarded. -/
theorem stale_string_id_ignored (b : Broker) (hb : ReachableBroker b)
    (s : String) (hs : parseInt64 s = none) (id : JSONRPCID)
    (hu : unmarshalJSON (JVal.jstr s) = Except.ok id) (r : lspResponse) :
    id.AsInt64 = 0 ∧ id.IsSet = true ∧ lookupKey b.pending 0 = none ∧
    deliverResponse b 0 r = (b, DeliverOutcome.discarded) := by
  have hid : id = ⟨parseInt64 s, some s⟩ := by
    have : Except.ok (⟨parseInt64 s, some s⟩ : JSONRPCID) = Except.ok id := hu
    exact (Except.ok.injEq .. ▸ this).symm
  subst hid
  have hzero : lookupKey b.pending 0 = none := lookupKey_zero_of_reachable hb
  refine ⟨by simp [JSONRPCID.AsInt64, hs], by simp [JSONRPCID.IsSet], hzero, ?_⟩
  unfold deliverResponse
  rw [hzero]

/-- Witness for C10 with the string id abc against the reachable state after
one allocation. -/
theorem stale_string_id_ignored_witness :
    JSONRPCID.AsInt64 ⟨none, some "abc"⟩ = 0 ∧
    JSONRPCID.IsSet ⟨none, some "abc"⟩ = true ∧
    lookupKey (Broker.mk 1 [(1, none)]).pending 0 = none ∧
    deliverResponse ⟨1, [(1, none)]⟩ 0 ⟨"", none⟩ =
      (⟨1, [(1, none)]⟩, DeliverOutcome.discarded) :=
  stale_string_id_ignored ⟨1, [(1, none)]⟩ ⟨[BrokerEvent.alloc], rfl⟩
    "abc" (by decide) ⟨none, some "abc"⟩ (by decide) ⟨"", none⟩

/-- C3: calling textDocument/didOpen twice in succession for a URI that was
not open emits exactly didOpen, didClose, didOpen for that URI in that order
on the LSP stream, and afterwards the open-document set contains the URI
exactly once. -/
theorem didOpen_twice_refresh (s : DocState) (u : String)
    (h : u ∉ s.openDocs) :
    (handleDidOpen (handleDidOpen s u) u).sent =
      s.sent ++ [DocNotif.didOpen u, DocNotif.didClose u, DocNotif.didOpen u] ∧
    (handleDidOpen (handleDidOpen s u) u).openDocs.count u = 1 := by
  have h1 : handleDidOpen s u =
      ⟨s.openDocs ++ [u], s.sent ++ [DocNotif.didOpen u]⟩ := by
    simp [handleDidOpen, setInsert, h]
  have hmem : u ∈ s.openDocs ++ [u] := by simp
  have h2 : handleDidOpen (⟨s.openDocs ++ [u], s.sent ++ [DocNotif.didOpen u]⟩ :
      DocState) u =
      ⟨s.openDocs ++ [u], (s.sent ++ [DocNotif.didOpen u]) ++
        [DocNotif.didClose u, DocNotif.didOpen u]⟩ := by
    simp [handleDidOpen, setInsert, hmem]
  rw [h1, h2]
  constructor
  · simp
  · simp [List.count_append, List.count_eq_zero.mpr h]

/-- Witness for C3 from the empty registry at a concrete URI. -/
theorem didOpen_twice_refresh_witness :
    (handleDidOpen (handleDidOpen ⟨[], []⟩ "file:///X") "file:///X").sent =
      [] ++ [DocNotif.didOpen "file:///X", DocNotif.didClose "file:///X",
        DocNotif.didOpen "file:///X"] ∧
    (handleDidOpen (handleDidOpen ⟨[], []⟩ "file:///X") "file:///X").openDocs.count
      "file:///X" = 1 :=
  didOpen_twice_refresh ⟨[], []⟩ "file:///X" (by simp)

/-- C1 (evaluation at the failing input): a file has mtime 1 in the snapshot
and mtime 2 in the scan taken while indexing is active. The during-indexing
tick emits no notification (that much the claim states correctly) and a
Changed diff did exist, but the tick also replaces the snapshot with the new
scan, so the first tick after indexing ends compares equal snapshots and
emits nothing: the accumulated diff is lost, contradicting the claim that the
snapshot does not advance and that the post-indexing scan emits the Changed
event. -/
theorem checkForChanges_lost_change_during_indexing :
    computeChanges [("/projects/a.bsl", 1)] [("/projects/a.bsl", 2)] =
      [⟨"file:///projects/a.bsl", 2⟩] ∧
    (checkForChanges [("/projects/a.bsl", 1)] [("/projects/a.bsl", 2)] true).2
      = [] ∧
    (checkForChanges [("/projects/a.bsl", 1)] [("/projects/a.bsl", 2)] true).1
      = [("/projects/a.bsl", 2)] ∧
    (checkForChanges
        (checkForChanges [("/projects/a.bsl", 1)] [("/projects/a.bsl", 2)]
          true).1
        [("/projects/a.bsl", 2)] false).2 = [] := by
  decide

/-- C4 counterexample: the wire shape of the id is not preserved for the
string id 42: parse-then-serialize turns the JSON string into a JSON
number, because MarshalJSON prefers the parsed integer alias. -/
theorem jsonrpcid_string_shape_cex :
    unmarshalJSON (JVal.jstr "42") = Except.ok ⟨some 42, some "42"⟩ ∧
    roundtripId (JVal.jstr "42") = some (JVal.jnum 42) ∧
    JVal.jnum 42 ≠ JVal.jstr "42" := by
  decide

/-- C4 amended: parse-then-serialize preserves the wire shape for a number, a
non-numeric string and null, but re-emits a string that parses as a decimal
integer as the equivalent JSON number (the integer alias wins in
MarshalJSON). -/
theorem jsonrpcid_roundtrip_amended (v : JVal) (id : JSONRPCID)
    (h : unmarshalJSON v = Except.ok id) :
    marshalJSON id = roundtripExpected v := by
  cases v with
  | jnull =>
      have hid : JSONRPCID.mk none none = id := Except.ok.inj h
      subst hid
      rfl
  | jnum n =>
      by_cases hr : -(2 ^ 63) ≤ n ∧ n ≤ 2 ^ 63 - 1
      · simp only [unmarshalJSON] at h
        rw [if_pos hr] at h
        have hid : JSONRPCID.mk (some n) none = id := Except.ok.inj h
        subst hid
        rfl
      · simp only [unmarshalJSON] at h
        rw [if_neg hr] at h
        simp at h
  | jstr s =>
      have hid : JSONRPCID.mk (parseInt64 s) (some s) = id := Except.ok.inj h
      subst hid
      clear h
      show marshalJSON ⟨parseInt64 s, some s⟩ = roundtripExpected (JVal.jstr s)
      unfold roundtripExpected
      cases hp : parseInt64 s <;> simp [marshalJSON, hp]
  | jother => simp [unmarshalJSON] at h

/-- Witness for C4 at the non-numeric string id abc. -/
theorem jsonrpcid_roundtrip_amended_witness :
    marshalJSON ⟨none, some "abc"⟩ = roundtripExpected (JVal.jstr "abc") :=
  jsonrpcid_roundtrip_amended (JVal.jstr "abc") ⟨none, some "abc"⟩ (by decide)

/-- C8 counterexample: a request for a method outside the router switch is
answered with error code -32603 (the same code as internal handler
failures), not with the method-not-found code -32601 the claim states. -/
theorem unknown_method_error_code_cex :
    apiMethods.contains "foo/bar" = false ∧
    processAPILine (some (7, "foo/bar")) (Except.ok ()) =
      APIResponse.failure 7 (-32603) "unknown method: foo/bar" ∧
    (-32603 : Int) ≠ -32601 := by
  decide

/-- C8 amended: an unparsable request line yields code -32700 with id 0; a
method outside the router switch yields code -32603 with the unknown-method
message; a known method whose handler fails yields code -32603 with the
handler error text. -/
theorem api_error_codes_amended (id : Int) (m : String)
    (fr : Except String Unit) (e : String) :
    (processAPILine none fr = APIResponse.failure 0 (-32700) "Parse error") ∧
    (m ∉ apiMethods →
      processAPILine (some (id, m)) fr =
        APIResponse.failure id (-32603) ("unknown method: " ++ m)) ∧
    (m ∈ apiMethods → fr = Except.error e →
      processAPILine (some (id, m)) fr = APIResponse.failure id (-32603) e) ∧
    (m ∈ apiMethods → fr = Except.ok () →
      processAPILine (some (id, m)) fr = APIResponse.success id) := by
  refine ⟨rfl, ?_, ?_, ?_⟩
  · intro hm
    simp [processAPILine, handleAPIRequestOutcome, hm]
  · intro hm hf
    subst hf
    simp [processAPILine, handleAPIRequestOutcome, hm]
  · intro hm hf
    subst hf
    simp [processAPILine, handleAPIRequestOutcome, hm]

/-- Witness for C8 at a concrete unknown method and a concrete failing
handler outcome. -/
theorem api_error_codes_amended_witness :
    processAPILine (some (7, "foo/bar")) (Except.error "boom") =
      APIResponse.failure 7 (-32603) ("unknown method: " ++ "foo/bar") :=
  (api_error_codes_amended 7 "foo/bar" (Except.error "boom") "boom").2.1
    (by decide)

theorem waitLoopAux_spec (activeAt : Nat → Bool) :
    ∀ fuel i0 i, waitLoopAux activeAt fuel i0 = some i →
      activeAt i = false ∧ (∀ j, i0 ≤ j → j < i → activeAt j = true) ∧
        i0 ≤ i := by
  intro fuel
  induction fuel with
  | zero => intro i0 i h; simp [waitLoopAux] at h
  | succ fuel ih =>
      intro i0 i h
      by_cases ha : activeAt i0 = true
      · simp [waitLoopAux, ha] at h
        obtain ⟨h1, h2, h3⟩ := ih (i0 + 1) i h
        refine ⟨h1, ?_, by omega⟩
        intro j hj1 hj2
        by_cases hj : j = i0
        · subst hj; exact ha
        · exact h2 j (by omega) hj2
      · have ha2 : activeAt i0 = false := by simpa using ha
        simp [waitLoopAux, ha2] at h
        subst h
        exact ⟨ha2, by intro j hj1 hj2; omega, le_refl _⟩

/-- C6: the watcher start routine polls the indexing flag and starts the
watcher exactly at the first poll at which indexing is inactive; in
particular, when the first indexing cycle keeps the flag active at every poll
before its completion index c, the watcher does not start before c. -/
theorem watcher_starts_after_indexing (activeAt : Nat → Bool)
    (fuel c i : Nat) (hcycle : ∀ j, j < c → activeAt j = true)
    (hstart : startFileWatcherAfterIndexing activeAt fuel = some i) :
    activeAt i = false ∧ (∀ j, j < i → activeAt j = true) ∧ c ≤ i := by
  obtain ⟨h1, h2, -⟩ := waitLoopAux_spec activeAt fuel 0 i hstart
  refine ⟨h1, fun j hj => h2 j (Nat.zero_le j) hj, ?_⟩
  by_contra hc
  push_neg at hc
  have h3 := hcycle i (by omega)
  rw [h3] at h1
  simp at h1

/-- Witness for C6: indexing is active exactly at polls 0 and 1 and the
watcher starts at poll 2. -/
theorem watcher_starts_after_indexing_witness :
    (fun j => decide (j < 2)) 2 = false ∧
    (∀ j, j < 2 → (fun j => decide (j < 2)) j = true) ∧ 2 ≤ 2 :=
  watcher_starts_after_indexing (fun j => decide (j < 2)) 5 2 2
    (by decide) (by decide)

/-- C7 counterexample: in the state with the active flag set, current = total
= 100 and speed 2, the derived state is indexing and the speed is positive,
yet no eta_seconds is reported, refuting the claimed if-and-only-if. -/
theorem getStatus_eta_iff_cex :
    getStatusState ⟨true, 100, 100, 2⟩ = "indexing" ∧
    (0 : Rat) < (IndexingState.mk true 100 100 2).speed ∧
    getStatusEta ⟨true, 100, 100, 2⟩ = none := by
  decide

/-- C7 amended: the derived state is exactly the formula of the claim, and
eta_seconds is reported if and only if the derived state is indexing AND the
speed is positive AND current < total, with value (total - current) / speed
truncated to an integer. -/
theorem getStatus_state_eta_amended (s : IndexingState) :
    getStatusState s = claimDerivedState s ∧
    (getStatusEta s =
      if claimDerivedState s = "indexing" ∧ 0 < s.speed ∧ s.current < s.total
      then some (Rat.floor ((s.total - s.current : Rat) / s.speed))
      else none) := by
  have hact : (statusIsActive s = true) ↔
      (s.active = true ∨ (0 < s.total ∧ s.current < s.total)) := by
    simp [statusIsActive]
  have hcomp : (statusIsComplete s = true) ↔
      (0 < s.total ∧ s.total ≤ s.current) := by
    simp [statusIsComplete]
  constructor
  · simp only [getStatusState, claimDerivedState]
    by_cases ha : statusIsActive s = true
    · rw [if_pos ha, if_pos (hact.mp ha)]
    · have ha2 : ¬(s.active = true ∨ (0 < s.total ∧ s.current < s.total)) :=
        fun hc => ha (hact.mpr hc)
      rw [if_neg ha, if_neg ha2]
      by_cases hco : statusIsComplete s = true
      · rw [if_pos hco, if_pos (hcomp.mp hco)]
      · have hco2 : ¬(0 < s.total ∧ s.total ≤ s.current) :=
          fun hc => hco (hcomp.mpr hc)
        rw [if_neg hco, if_neg hco2]
  · simp only [getStatusEta]
    by_cases hc : statusIsActive s = true ∧ 0 < s.speed ∧ s.current < s.total
    · rw [if_pos hc]
      have hcd : claimDerivedState s = "indexing" ∧ 0 < s.speed ∧
          s.current < s.total := by
        refine ⟨?_, hc.2⟩
        simp only [claimDerivedState, if_pos (hact.mp hc.1)]
      rw [if_pos hcd]
    · rw [if_neg hc]
      have hcd : ¬(claimDerivedState s = "indexing" ∧ 0 < s.speed ∧
          s.current < s.total) := by
        intro hh
        apply hc
        refine ⟨?_, hh.2⟩
        by_cases ha : statusIsActive s = true
        · exact ha
        · exfalso
          have ha2 : ¬(s.active = true ∨ (0 < s.total ∧ s.current < s.total)) :=
            fun hcc => ha (hact.mpr hcc)
          have hh1 := hh.1
          simp only [claimDerivedState, if_neg ha2] at hh1
          by_cases hco : 0 < s.total ∧ s.total ≤ s.current
          · rw [if_pos hco] at hh1
            exact absurd hh1 (by decide)
          · rw [if_neg hco] at hh1
            exact absurd hh1 (by decide)
      rw [if_neg hcd]

/-! ## Decimal round-trip lemmas -/

theorem digitChar_facts (d : Nat) (hd : d < 10) :
    charIsDigit (Nat.digitChar d) = true ∧
    isSpaceChar (Nat.digitChar d) = false ∧
    Nat.digitChar d ≠ '\n' ∧ Nat.digitChar d ≠ '-' ∧ Nat.digitChar d ≠ '+' ∧
    (Nat.digitChar d).toNat - 48 = d := by
  interval_cases d <;> exact ⟨by decide, by decide, by decide, by decide,
    by decide, by decide⟩

theorem decReprAux_mem (fuel : Nat) :
    ∀ n c, c ∈ decReprAux fuel n → ∃ d, d < 10 ∧ c = Nat.digitChar d := by
  induction fuel with
  | zero => intro n c h; simp [decReprAux] at h
  | succ fuel ih =>
      intro n c h
      by_cases hn : n = 0
      · simp [decReprAux, hn] at h
      · simp [decReprAux, hn] at h
        rcases h with h | h
        · exact ih _ _ h
        · exact ⟨n % 10, Nat.mod_lt _ (by norm_num), h⟩

theorem decRepr_mem (n : Nat) (c : Char) (h : c ∈ decRepr n) :
    ∃ d, d < 10 ∧ c = Nat.digitChar d := by
  by_cases hn : n = 0
  · simp [decRepr, hn] at h
    exact ⟨0, by norm_num, by rw [h]; rfl⟩
  · simp [decRepr, hn] at h
    exact decReprAux_mem n n c h

theorem decRepr_ne_nil (n : Nat) : decRepr n ≠ [] := by
  by_cases hn : n = 0
  · simp [decRepr, hn]
  · simp [decRepr, hn]
    cases n with
    | zero => exact absurd rfl hn
    | succ m => simp [decReprAux, hn]

theorem decRepr_digits (n : Nat) (c : Char) (h : c ∈ decRepr n) :
    charIsDigit c = true ∧ isSpaceChar c = false ∧ c ≠ '\n' := by
  obtain ⟨d, hd, hcd⟩ := decRepr_mem n c h
  obtain ⟨f1, f2, f3, -, -, -⟩ := digitChar_facts d hd
  subst hcd
  exact ⟨f1, f2, f3⟩

theorem decReprAux_foldl (fuel : Nat) :
    ∀ n a, n ≤ fuel →
      (decReprAux fuel n).foldl (fun x c => x * 10 + (c.toNat - 48)) a =
        a * 10 ^ (decReprAux fuel n).length + n := by
  induction fuel with
  | zero =>
      intro n a h
      interval_cases n
      simp [decReprAux]
  | succ fuel ih =>
      intro n a h
      by_cases hn : n = 0
      · simp [decReprAux, hn]
      · have hrec : n / 10 ≤ fuel := by omega
        have hsplit : decReprAux (fuel + 1) n =
            decReprAux fuel (n / 10) ++ [Nat.digitChar (n % 10)] := by
          simp [decReprAux, hn]
        rw [hsplit, List.foldl_append, ih (n / 10) a hrec]
        have hd : (Nat.digitChar (n % 10)).toNat - 48 = n % 10 :=
          (digitChar_facts (n % 10) (Nat.mod_lt _ (by norm_num))).2.2.2.2.2
        simp only [List.foldl_cons, List.foldl_nil, List.length_append,
          List.length_singleton, hd]
        have hdm : 10 * (n / 10) + n % 10 = n := Nat.div_add_mod n 10
        set L := (decReprAux fuel (n / 10)).length with hL
        set X := (10 : Nat) ^ L with hX
        have hpow : (10 : Nat) ^ (L + 1) = X * 10 := by rw [hX, pow_succ]
        calc (a * X + n / 10) * 10 + (n % 10)
            = a * (X * 10) + (10 * (n / 10) + n % 10) := by ring
          _ = a * (X * 10) + n := by rw [hdm]
          _ = a * 10 ^ (L + 1) + n := by rw [hpow]

theorem atoiChars_decRepr (n : Nat) (h : n ≤ 2 ^ 63 - 1) :
    atoiChars (decRepr n) = some ((n : Int)) := by
  by_cases hn : n = 0
  · subst hn; decide
  · obtain ⟨c, rest, hcr⟩ : ∃ c rest, decRepr n = c :: rest := by
      cases hd : decRepr n with
      | nil => exact absurd hd (decRepr_ne_nil n)
      | cons c rest => exact ⟨c, rest, rfl⟩
    have hcmem : c ∈ decRepr n := by rw [hcr]; simp
    obtain ⟨d, hd10, hcd⟩ := decRepr_mem n c hcmem
    have hfacts := digitChar_facts d hd10
    have hcminus : ¬(c = '-') := by rw [hcd]; exact hfacts.2.2.2.1
    have hcplus : ¬(c = '+') := by rw [hcd]; exact hfacts.2.2.2.2.1
    have hall : (c :: rest).all charIsDigit = true := by
      rw [← hcr]
      apply List.all_eq_true.mpr
      intro x hx
      exact (decRepr_digits n x hx).1
    have hv : (c :: rest).foldl (fun a ch => a * 10 + (ch.toNat - 48)) 0 = n := by
      rw [← hcr]
      have hdec : decRepr n = decReprAux n n := by simp [decRepr, hn]
      rw [hdec, decReprAux_foldl n n 0 (le_refl n)]
      simp
    rw [hcr]
    show atoiChars (c :: rest) = some ((n : Int))
    rw [show atoiChars (c :: rest) =
      (if c = '-' then atoiMag true rest
       else if c = '+' then atoiMag false rest
       else atoiMag false (c :: rest)) from rfl]
    rw [if_neg hcminus, if_neg hcplus]
    unfold atoiMag
    rw [if_neg (by simp : ¬((c :: rest : List Char) = []))]
    rw [hall]
    simp only [if_true, Bool.false_eq_true, if_false, hv, if_pos h]

/-! ## Framing lemmas -/

theorem readLine_append (l rest : List Char) (h : '\n' ∉ l) :
    readLine (l ++ '\n' :: rest) = some (l ++ ['\n'], rest) := by
  induction l with
  | nil => simp [readLine]
  | cons c cs ih =>
      have hc : ¬(c = '\n') := by
        intro hh
        exact h (by simp [hh])
      have hcs : '\n' ∉ cs := fun hx => h (List.mem_cons_of_mem _ hx)
      simp [readLine, hc, ih hcs]

theorem dropWhile_all_false (p : Char → Bool) :
    ∀ l : List Char, (∀ c ∈ l, p c = false) → l.dropWhile p = l := by
  intro l
  induction l with
  | nil => intro h; rfl
  | cons c cs ih =>
      intro h
      have hc : p c = false := h c (by simp)
      simp [List.dropWhile_cons, hc]

theorem dropWhile_append_all_true (p : Char → Bool) :
    ∀ s t : List Char, (∀ c ∈ s, p c = true) →
      (s ++ t).dropWhile p = t.dropWhile p := by
  intro s
  induction s with
  | nil => intro t h; rfl
  | cons c cs ih =>
      intro t h
      have hc : p c = true := h c (by simp)
      have hcs : ∀ x ∈ cs, p x = true := fun x hx => h x (by simp [hx])
      simp [List.dropWhile_cons, hc, ih t hcs]

theorem dropWhile_all_true (p : Char → Bool) :
    ∀ l : List Char, (∀ c ∈ l, p c = true) → l.dropWhile p = [] := by
  intro l
  induction l with
  | nil => intro h; rfl
  | cons c cs ih =>
      intro h
      have hc : p c = true := h c (by simp)
      simp [List.dropWhile_cons, hc, ih fun x hx => h x (by simp [hx])]

theorem trimChars_all_space (l : List Char)
    (h : ∀ c ∈ l, isSpaceChar c = true) : trimChars l = [] := by
  unfold trimChars
  rw [dropWhile_all_true isSpaceChar l h]
  rfl

theorem trimChars_no_space (l : List Char)
    (h : ∀ c ∈ l, isSpaceChar c = false) : trimChars l = l := by
  unfold trimChars
  rw [dropWhile_all_false isSpaceChar l h]
  rw [dropWhile_all_false isSpaceChar l.reverse
    (fun c hc => h c (List.mem_reverse.mp hc))]
  simp

theorem trimChars_cons_space (c : Char) (l : List Char)
    (hc : isSpaceChar c = true) : trimChars (c :: l) = trimChars l := by
  unfold trimChars
  simp [List.dropWhile_cons, hc]

theorem trimChars_append_spaces (c : Char) (mid : List Char) (d : Char)
    (sp : List Char) (hc : isSpaceChar c = false) (hd : isSpaceChar d = false)
    (hsp : ∀ x ∈ sp, isSpaceChar x = true) :
    trimChars ((c :: (mid ++ [d])) ++ sp) = c :: (mid ++ [d]) := by
  unfold trimChars
  have hfront : (((c :: (mid ++ [d])) ++ sp).dropWhile isSpaceChar) =
      c :: (mid ++ [d] ++ sp) := by
    simp [List.dropWhile_cons, hc, List.append_assoc]
  rw [hfront]
  have hrev : (c :: (mid ++ [d] ++ sp)).reverse =
      sp.reverse ++ (d :: (mid.reverse ++ [c])) := by
    simp [List.reverse_cons, List.reverse_append, List.append_assoc]
  rw [hrev]
  rw [dropWhile_append_all_true isSpaceChar sp.reverse _
    (fun x hx => hsp x (List.mem_reverse.mp hx))]
  rw [show ((d :: (mid.reverse ++ [c])).dropWhile isSpaceChar) =
      d :: (mid.reverse ++ [c]) by simp [List.dropWhile_cons, hd]]
  simp

theorem listStartsWith_append (p t : List Char) :
    listStartsWith p (p ++ t) = true := by
  induction p with
  | nil => rfl
  | cons c cs ih => simp [listStartsWith, ih]

theorem readHeaders_frame (n : Nat) (hn : n ≤ 2 ^ 63 - 1) (fuel : Nat)
    (X : List Char) :
    readHeaders (fuel + 2)
      ("Content-Length: ".data ++ decRepr n ++ "\r\n\r\n".data ++ X) 0 =
      Except.ok ((n : Int), X) := by
  have hin : "Content-Length: ".data ++ decRepr n ++ "\r\n\r\n".data ++ X =
      (("Content-Length: ".data ++ decRepr n) ++ ['\r']) ++
        '\n' :: ('\r' :: '\n' :: X) := by
    rw [show ("\r\n\r\n".data : List Char) = ['\r', '\n', '\r', '\n'] from
      by decide]
    simp [List.append_assoc]
  have hnl : '\n' ∉ ("Content-Length: ".data ++ decRepr n) ++ ['\r'] := by
    intro hmem
    rcases List.mem_append.mp hmem with hmem | hmem
    · rcases List.mem_append.mp hmem with h1 | h1
      · revert h1; decide
      · exact (decRepr_digits n _ h1).2.2 rfl
    · revert hmem; decide
  have hread1 := readLine_append
    (("Content-Length: ".data ++ decRepr n) ++ ['\r'])
    ('\r' :: '\n' :: X) hnl
  obtain ⟨ds, dl, hds⟩ : ∃ ds dl, decRepr n = ds ++ [dl] := by
    rcases (decRepr n).eq_nil_or_concat' with h | ⟨L, b, h⟩
    · exact absurd h (decRepr_ne_nil n)
    · exact ⟨L, b, h⟩
  have hdl : isSpaceChar dl = false :=
    (decRepr_digits n dl (by rw [hds]; simp)).2.1
  have hA : "Content-Length: ".data ++ decRepr n =
      'C' :: (("ontent-Length: ".data ++ ds) ++ [dl]) := by
    rw [hds, show ("Content-Length: ".data : List Char) =
      'C' :: "ontent-Length: ".data from by decide]
    simp [List.append_assoc]
  have htrim1 : trimChars
      ((("Content-Length: ".data ++ decRepr n) ++ ['\r']) ++ ['\n']) =
      "Content-Length: ".data ++ decRepr n := by
    have h1 : ((("Content-Length: ".data ++ decRepr n) ++ ['\r']) ++ ['\n']) =
        ('C' :: (("ontent-Length: ".data ++ ds) ++ [dl])) ++ ['\r', '\n'] := by
      rw [hA]
      simp [List.append_assoc]
    rw [h1, trimChars_append_spaces 'C' ("ontent-Length: ".data ++ ds) dl
      ['\r', '\n'] (by decide) hdl (by decide), ← hA]
  have hAne : ¬("Content-Length: ".data ++ decRepr n = []) := by
    rw [hA]
    simp
  have hCL : ("Content-Length: ".data : List Char) = clTag ++ [' '] := by
    decide
  have hsw : listStartsWith clTag
      ("Content-Length: ".data ++ decRepr n) = true := by
    rw [hCL, List.append_assoc]
    exact listStartsWith_append clTag ([' '] ++ decRepr n)
  have hdp : dropPre clTag ("Content-Length: ".data ++ decRepr n) =
      ' ' :: decRepr n := by
    unfold dropPre
    rw [if_pos hsw, hCL, List.append_assoc]
    exact List.drop_left clTag ([' '] ++ decRepr n)
  have htrim2 : trimChars (' ' :: decRepr n) = decRepr n := by
    rw [trimChars_cons_space ' ' _ (by decide)]
    exact trimChars_no_space _ (fun c hc => (decRepr_digits n c hc).2.1)
  have hat : atoiChars (decRepr n) = some ((n : Int)) := atoiChars_decRepr n hn
  have hread2 : readLine ('\r' :: '\n' :: X) = some (['\r', '\n'], X) := by
    have h := readLine_append ['\r'] X (by decide)
    simpa using h
  have htrim3 : trimChars ['\r', '\n'] = [] := by decide
  rw [hin]
  show readHeaders (fuel + 1 + 1) _ 0 = _
  simp only [readHeaders, hread1, htrim1, htrim2, htrim3, hsw, hdp, hread2,
    hat, hAne, if_true, if_false]

theorem readHeaders_frame_ge (n : Nat) (hn : n ≤ 2 ^ 63 - 1) (fuel : Nat)
    (hf : 2 ≤ fuel) (X : List Char) :
    readHeaders fuel
      ("Content-Length: ".data ++ decRepr n ++ "\r\n\r\n".data ++ X) 0 =
      Except.ok ((n : Int), X) := by
  obtain ⟨m, rfl⟩ : ∃ m, fuel = m + 2 := ⟨fuel - 2, by omega⟩
  exact readHeaders_frame n hn m X

/-- C9: the framed codec round-trips: for every non-empty body of at most
16 MiB, the bytes writeMessage emits (the Content-Length header line, a blank
line, then exactly the body) are parsed back by readLSPMessage into exactly
that body, leaving any following bytes untouched. -/
theorem writeMessage_readLSPMessage_roundtrip (body tail : List Char)
    (h1 : body ≠ []) (h2 : body.length ≤ 16 * 1024 * 1024) :
    readLSPMessage (writeFrame body ++ tail) = Except.ok (body, tail) := by
  have hn : body.length ≤ 2 ^ 63 - 1 := le_trans h2 (by norm_num)
  have hbl : 0 < body.length := List.length_pos.mpr h1
  have hshape : writeFrame body ++ tail =
      "Content-Length: ".data ++ decRepr body.length ++ "\r\n\r\n".data ++
        (body ++ tail) := by
    simp [writeFrame, List.append_assoc]
  rw [hshape]
  have h16 : ("Content-Length: ".data : List Char).length = 16 := by decide
  have hflen : 2 ≤ ("Content-Length: ".data ++ decRepr body.length ++
      "\r\n\r\n".data ++ (body ++ tail)).length + 1 := by
    simp only [List.length_append, h16]
    omega
  have hhead := readHeaders_frame_ge body.length hn _ hflen (body ++ tail)
  simp only [readLSPMessage, hhead]
  have hz : ¬(((body.length : Nat) : Int) = 0) := by omega
  have hneg : ¬(((body.length : Nat) : Int) < 0) := by omega
  rw [if_neg hz, if_neg hneg]
  have htn : ((body.length : Nat) : Int).toNat = body.length := Int.toNat_natCast _
  rw [htn]
  have hrf : readFull (body ++ tail) body.length = some (body, tail) := by
    unfold readFull
    rw [if_neg (by rw [List.length_append]; omega)]
    rw [List.take_left, List.drop_left]
  rw [hrf]

/-- Witness for C9 with the body null and nothing following the frame. -/
theorem writeMessage_readLSPMessage_roundtrip_witness :
    readLSPMessage (writeFrame "null".data ++ []) =
      Except.ok ("null".data, []) :=
  writeMessage_readLSPMessage_roundtrip "null".data [] (by decide) (by decide)

/-- C5 counterexample: a stream with a good frame, then a frame whose header
block lacks Content-Length, then another good frame. The reader loop
processes the first body and stops: the third, perfectly parseable frame is
never processed, refuting the claim that the loop merely drops the offending
message and continues. -/
theorem readLoop_missing_content_length_cex :
    readLoop 10 (writeFrame "AAAA".data ++ "Foo: 1\r\n\r\n".data ++
      writeFrame "BBBB".data) = ["AAAA".data] ∧
    readLSPMessage ("Foo: 1\r\n\r\n".data ++ writeFrame "BBBB".data) =
      Except.error "missing Content-Length header" ∧
    readLSPMessage (writeFrame "BBBB".data) =
      Except.ok ("BBBB".data, []) := by
  decide

/-- C5 amended: the read loop terminates on every framing error from
readLSPMessage (malformed frame or missing Content-Length) and continues
only after a successfully framed message; a body whose JSON fails to parse
is dropped inside the iteration without stopping the loop, which is why a
successfully framed body is always consumed and the loop recurses. -/
theorem readLoop_amended (input : List Char) (fuel : Nat) :
    (∀ e, readLSPMessage input = Except.error e →
      readLoop (fuel + 1) input = []) ∧
    (∀ b rest, readLSPMessage input = Except.ok (b, rest) →
      readLoop (fuel + 1) input = b :: readLoop fuel rest) := by
  constructor
  · intro e he
    simp [readLoop, he]
  · intro b rest hb
    simp [readLoop, hb]

/-- Witness for C5 at a concrete header block without Content-Length. -/
theorem readLoop_amended_witness :
    readLoop 2 "Foo: 1\r\n\r\n".data = [] :=
  (readLoop_amended "Foo: 1\r\n\r\n".data 1).1
    "missing Content-Length header" (by decide)
